import Mathlib

/-!
Verification development for the browser image-editor repository.

Two subsystems are embedded from the source:

* the edit-history store: `src/lib/historyUtils.ts` (persistence with a
  50-item cap and shape validation) and the history-mutating handlers of
  `src/app/page.tsx` (upload, generate, revert), plus the replace-in-place
  generate variant found in the unnamed page component;
* the blob-URL manager: `src/lib/blobURLManager.ts`, a reference-counted
  registry of platform object URLs keyed by a derived source identity.

Modelling conventions, each noted again at the definition it concerns:
JavaScript `Map`s become association lists with `mapGet`/`mapSet`/`mapDelete`
mirroring `get`/`set`/`delete`; platform URL allocation
(`URL.createObjectURL`) is a fresh opaque handle, modelled by a counter;
`Date.now()`/`crypto.randomUUID()` results are passed in as explicit
arguments; `localStorage` plus `JSON.parse` is modelled by a `StoredPayload`
that is either absent, unparseable, or a parsed JSON value `JValue`.
-/

/-! ## JSON values (the image of `JSON.parse`) -/

/-- A parsed JSON value.  `JSON.parse` can only produce null, booleans,
numbers, strings, arrays and objects (an object being a finite list of
string-keyed fields, without duplicate keys). -/
inductive JValue where
  | jnull
  | jbool (b : Bool)
  | jnum (n : Int)
  | jstr (s : String)
  | jarr (elems : List JValue)
  | jobj (fields : List (String × JValue))

/-- `typeof v` for a parsed JSON value.  Note the JavaScript quirk that
`typeof null` and `typeof` of an array are both `"object"`. -/
def jsTypeof : JValue → String
  | .jnull => "object"
  | .jbool _ => "boolean"
  | .jnum _ => "number"
  | .jstr _ => "string"
  | .jarr _ => "object"
  | .jobj _ => "object"

/-- First field with the given key of a JSON object field list
(`JSON.parse` never yields duplicate keys, so first match is the match). -/
def lookupField (fields : List (String × JValue)) (k : String) : Option JValue :=
  match fields with
  | [] => none
  | p :: rest => if p.1 = k then some p.2 else lookupField rest k

/-- Property access `v[k]` on a parsed JSON value that is not `null`:
objects yield the field when present, everything else (arrays included,
for non-index keys such as `"id"`) yields `undefined`, modelled as `none`.
Property access on `null` throws and is handled at the call site. -/
def getProp (v : JValue) (k : String) : Option JValue :=
  match v with
  | .jobj fields => lookupField fields k
  | _ => none

/-- `typeof v[k]` where `none` stands for `undefined`. -/
def jsTypeofProp (v : JValue) (k : String) : String :=
  match getProp v k with
  | none => "undefined"
  | some w => jsTypeof w

/-- JavaScript truthiness of a possibly-undefined JSON value. -/
def jsTruthy : Option JValue → Bool
  | none => false
  | some .jnull => false
  | some (.jbool b) => b
  | some (.jnum n) => !(n == 0)
  | some (.jstr s) => !(s == "")
  | some (.jarr _) => true
  | some (.jobj _) => true

/-- JavaScript `String.prototype.trim`: strip leading and trailing
whitespace (an executable model over the character list). -/
def jsTrim (s : String) : String :=
  String.mk (((s.data.dropWhile Char.isWhitespace).reverse.dropWhile
    Char.isWhitespace).reverse)

/-- JavaScript `a || b` for an optional string `a` and default `b`:
`undefined`/`null` and the empty string are falsy. -/
def jsOrDefault (o : Option String) (d : String) : String :=
  match o with
  | none => d
  | some s => if s = "" then d else s

/-! ## The `HistoryItem` data model (`src/types/index.ts`) -/

/-- One immutable snapshot in the edit timeline.  In the source,
`isOriginal` is an optional boolean; absence reads back as falsy, so it is
modelled as a plain `Bool`. -/
structure HistoryItem where
  id : String
  imageData : String
  prompt : String
  timestamp : Int
  isOriginal : Bool
deriving DecidableEq

/-- `createHistoryItem` from `src/lib/historyUtils.ts`.  The source draws
`id` from `crypto.randomUUID()` and `timestamp` from `Date.now()`; both are
passed explicitly here. -/
def createHistoryItem (id : String) (imageData : String) (prompt : String)
    (timestamp : Int) (isOriginal : Bool := false) : HistoryItem :=
  { id := id, imageData := imageData, prompt := prompt,
    timestamp := timestamp, isOriginal := isOriginal }

/-! ## Persistence (`saveHistory` / `loadHistory`, `src/lib/historyUtils.ts`) -/

/-- `MAX_HISTORY_ITEMS` from `src/lib/historyUtils.ts`. -/
def MAX_HISTORY_ITEMS : Nat := 50

/-- What `localStorage.getItem` + `JSON.parse` can observe on load:
no stored string, a stored string `JSON.parse` rejects, or a parsed value. -/
inductive StoredPayload where
  | absent
  | invalid
  | parsed (v : JValue)

/-- Serialization of one `HistoryItem` as `JSON.stringify` writes it
(every field is present on items built by `createHistoryItem`). -/
def encodeItem (it : HistoryItem) : JValue :=
  .jobj [("id", .jstr it.id), ("imageData", .jstr it.imageData),
         ("prompt", .jstr it.prompt), ("timestamp", .jnum it.timestamp),
         ("isOriginal", .jbool it.isOriginal)]

/-- `saveHistory` (happy path): stores `JSON.stringify(history.slice(-MAX_HISTORY_ITEMS))`.
`slice(-n)` keeps the last `n` elements, i.e. drops `length - n` from the
front (nothing when the list is short).  The quota-exceeded fallback that
retries with the last 10 items is not modelled (storage is unbounded here). -/
def saveHistory (history : List HistoryItem) : StoredPayload :=
  .parsed (.jarr ((history.drop (history.length - MAX_HISTORY_ITEMS)).map encodeItem))

/-- The validation callback of `loadHistory`'s `parsed.filter(...)`:

`typeof item === 'object' && typeof item.id === 'string' && typeof item.imageData === 'string'
 && typeof item.prompt === 'string' && typeof item.timestamp === 'number'`.

Conjunction is left-to-right: when `typeof item` is not `"object"` the
result is `false` with no property access; when `item` is `null` the first
property access `item.id` throws a `TypeError` (modelled as `none`), which
aborts the whole `filter`. -/
def validateItem (item : JValue) : Option Bool :=
  if jsTypeof item ≠ "object" then some false
  else
    match item with
    | .jnull => none
    | _ => some (jsTypeofProp item "id" == "string"
        && jsTypeofProp item "imageData" == "string"
        && jsTypeofProp item "prompt" == "string"
        && jsTypeofProp item "timestamp" == "number")

/-- `Array.prototype.filter` with a callback that may throw: callbacks run
left to right and a throw (`none`) aborts the whole call. -/
def filterValidate : List JValue → Option (List JValue)
  | [] => some []
  | v :: rest =>
    match validateItem v with
    | none => none
    | some b =>
      match filterValidate rest with
      | none => none
      | some tail => some (if b then v :: tail else tail)

/-- Reading the fields of a validated item back as a `HistoryItem` (the
source keeps the parsed objects and reads these properties through the
`HistoryItem` type; `isOriginal` is read by truthiness, absent = false). -/
def decodeItem (v : JValue) : HistoryItem :=
  { id := match getProp v "id" with | some (.jstr s) => s | _ => ""
    imageData := match getProp v "imageData" with | some (.jstr s) => s | _ => ""
    prompt := match getProp v "prompt" with | some (.jstr s) => s | _ => ""
    timestamp := match getProp v "timestamp" with | some (.jnum n) => n | _ => 0
    isOriginal := jsTruthy (getProp v "isOriginal") }

/-- `loadHistory` from `src/lib/historyUtils.ts`: missing storage gives `[]`;
a parse failure is caught and gives `[]`; a non-array parse gives `[]`;
otherwise the items are filtered by `validateItem` — a throw inside the
filter is caught by the same `try`/`catch` and gives `[]`. -/
def loadHistory (stored : StoredPayload) : List HistoryItem :=
  match stored with
  | .absent => []
  | .invalid => []
  | .parsed v =>
    match v with
    | .jarr elems =>
      match filterValidate elems with
      | none => []
      | some good => good.map decodeItem
    | _ => []

/-! ## App state and handlers (`src/app/page.tsx`) -/

/-- `EditStatus` from `src/types/index.ts`. -/
inductive EditStatus where
  | idle
  | loading
  | success
  | error
deriving DecidableEq

/-- `AppState` from `src/types/index.ts`.  `imageFile : Bool` records the
presence of the uploaded `File` (its bytes live in the platform layer);
`errorMessage?: string` is an `Option`. -/
structure AppState where
  imageFile : Bool
  prompt : String
  outputImage : Option String
  status : EditStatus
  errorMessage : Option String
  imageHistory : List HistoryItem
  currentHistoryId : Option String
deriving DecidableEq

/-- The initial `useState` value of `Home`. -/
def initAppState : AppState :=
  { imageFile := false, prompt := "", outputImage := none, status := .idle,
    errorMessage := none, imageHistory := [], currentHistoryId := none }

/-- `ImageEditResponse` from `src/types/index.ts`: outcome of the
`editImage` server action. -/
structure EditResult where
  success : Bool
  data : Option String
  error : Option String
deriving DecidableEq

/-- JavaScript truthiness of `result.data` (`undefined` and `""` are falsy). -/
def resultTruthyData : Option String → Bool
  | none => false
  | some d => !(d == "")

/-- `Array.prototype.find` (first match or `undefined`). -/
def jsFind (p : α → Bool) : List α → Option α
  | [] => none
  | x :: xs => if p x then some x else jsFind p xs

/-- `Array.prototype.findIndex`, with `none` in place of `-1`. -/
def findIndexOpt (p : α → Bool) : List α → Option Nat
  | [] => none
  | x :: xs => if p x then some 0 else (findIndexOpt p xs).map (· + 1)

/-- JavaScript `String.prototype.replace` with a string pattern replaces
only the first occurrence. -/
def replaceFirst (s pat rep : String) : String :=
  match s.splitOn pat with
  | [] => s
  | [whole] => whole
  | x :: y :: rest => x ++ rep ++ String.intercalate pat (y :: rest)

/-- The `outputImage` computed by `handleRevert`:
`imageData.startsWith('data:') ? imageData.replace('data:image/png;base64,','').replace('data:image/jpeg;base64,','') : imageData`. -/
def revertOutputImage (imageData : String) : String :=
  if imageData.startsWith "data:" then
    replaceFirst (replaceFirst imageData "data:image/png;base64," "") "data:image/jpeg;base64," ""
  else imageData

/-- `handleImageSelect` (`src/app/page.tsx` lines 44–65), after the
`FileReader` resolves with `base64Data`: history is replaced by a single
original item and it becomes current.  `newId`/`now` stand for
`crypto.randomUUID()`/`Date.now()` inside `createHistoryItem`. -/
def handleImageSelect (newId : String) (base64Data : String) (now : Int)
    (st : AppState) : AppState :=
  let originalItem := createHistoryItem newId base64Data "" now true
  { st with imageFile := true, status := .idle, outputImage := none,
            errorMessage := none, imageHistory := [originalItem],
            currentHistoryId := some originalItem.id }

/-- The synchronous prefix of `handleGenerate` (`src/app/page.tsx` lines
71–77): the guard `if (!state.imageFile || !state.prompt.trim()) return;`
followed by `setState(status: 'loading')` and the start of the transition.
`none` means the handler returned without starting a request; `some st'`
is the state in which the request is now outstanding.  Note the guard does
not inspect `state.status`. -/
def handleGenerateStart (st : AppState) : Option AppState :=
  if !st.imageFile || jsTrim st.prompt == "" then none
  else some { st with status := .loading }

/-- The shared error branch of `handleGenerate`
(`setState(status: 'error', errorMessage: result.error || '…')`). -/
def generateErrorState (result : EditResult) (st : AppState) : AppState :=
  { st with status := .error,
            errorMessage := some (jsOrDefault result.error "An unexpected error occurred") }

/-- Completion of `handleGenerate` (`src/app/page.tsx` lines 116–150) once
`editImage` returned `result`.  On `result.success && result.data` a new
item `data:image/png;base64,<data>` is appended (linear history) and made
current; otherwise only `status`/`errorMessage` change.  The inner `none`
arm is unreachable because truthy `result.data` is a nonempty string. -/
def handleGenerateFinish (newId : String) (now : Int) (result : EditResult)
    (st : AppState) : AppState :=
  if result.success && resultTruthyData result.data then
    match result.data with
    | some d =>
      let newHistoryItem :=
        createHistoryItem newId ("data:image/png;base64," ++ d) st.prompt now
      { st with outputImage := some d, status := .success, errorMessage := none,
                imageHistory := st.imageHistory ++ [newHistoryItem],
                currentHistoryId := some newHistoryItem.id }
    | none => generateErrorState result st
  else generateErrorState result st

/-- The `catch` branch of `handleGenerate` (`src/app/page.tsx` lines 143–150). -/
def handleGenerateThrow (st : AppState) : AppState :=
  { st with status := .error,
            errorMessage := some "Failed to process your request. Please try again." }

/-- Completion of the `handleGenerate` variant of the unnamed page
component (`src/unnamed/part_004` lines 119–168): when the current item is
an AI-generated one it is replaced in place, otherwise the history up to
the current item is kept and the new item appended.  The error branch is
identical to the main page's. -/
def handleGenerateFinishVariant (newId : String) (now : Int) (result : EditResult)
    (st : AppState) : AppState :=
  if result.success && resultTruthyData result.data then
    match result.data with
    | some d =>
      let newHistoryItem :=
        createHistoryItem newId ("data:image/png;base64," ++ d) st.prompt now
      let currentIndexOpt :=
        match st.currentHistoryId with
        | some cid => findIndexOpt (fun it : HistoryItem => it.id == cid) st.imageHistory
        | none => none
      let updatedHistory :=
        match currentIndexOpt with
        | some ci =>
          match st.imageHistory[ci]? with
          | some cur =>
            if !cur.isOriginal then st.imageHistory.set ci newHistoryItem
            else st.imageHistory.take (ci + 1) ++ [newHistoryItem]
          | none => st.imageHistory ++ [newHistoryItem]
        | none => st.imageHistory ++ [newHistoryItem]
      { st with outputImage := some d, status := .success, errorMessage := none,
                imageHistory := updatedHistory,
                currentHistoryId := some newHistoryItem.id }
    | none => generateErrorState result st
  else generateErrorState result st

/-- `handleRevert` (`src/app/page.tsx` lines 155–177): look the item up,
re-find its index (returning unchanged when absent, mirroring the two
early returns), truncate the history to the prefix ending at it, and make
it current. -/
def handleRevert (historyId : String) (st : AppState) : AppState :=
  match jsFind (fun it : HistoryItem => it.id == historyId) st.imageHistory with
  | none => st
  | some historyItem =>
    match findIndexOpt (fun it : HistoryItem => it.id == historyId) st.imageHistory with
    | none => st
    | some revertIndex =>
      let newHistory := st.imageHistory.take (revertIndex + 1)
      { st with outputImage := some (revertOutputImage historyItem.imageData),
                currentHistoryId := some historyId,
                imageHistory := newHistory,
                status := .success }

/-- `handleClear` (`src/unnamed/part_004` lines 172–182): reset to the
initial state (and clear storage, which lives outside `AppState`). -/
def handleClear (_st : AppState) : AppState := initAppState

/-- The mount effect of `Home` (`src/app/page.tsx` lines 31–42): hydrate
from storage; when the loaded list is nonempty, its last item becomes
current (`savedHistory[len-1]?.id || null`, so an empty-string id reads as
null). -/
def hydrateFromStorage (payload : StoredPayload) (st : AppState) : AppState :=
  let savedHistory := loadHistory payload
  match savedHistory.getLast? with
  | none => st
  | some lastItem =>
    { st with imageHistory := savedHistory,
              currentHistoryId := if lastItem.id = "" then none else some lastItem.id,
              outputImage := if lastItem.imageData = "" then none else some lastItem.imageData }

/-- `canGenerate` (`src/app/page.tsx` lines 240–241):
`Boolean(state.imageFile && state.prompt.trim().length > 0 && state.status !== 'loading')`. -/
def canGenerate (st : AppState) : Bool :=
  st.imageFile && decide (0 < (jsTrim st.prompt).length) && !(st.status == .loading)

/-- `MAX_PROMPT_LENGTH` from `src/components/PromptInput.tsx`. -/
def MAX_PROMPT_LENGTH : Nat := 1000

/-- The `canGenerate` gate inside `PromptInput`
(`prompt.trim().length > 0 && !isOverLimit && !isLoading && !disabled`);
the page passes `isLoading := (status === 'loading')`. -/
def promptInputCanGenerate (prompt : String) (isLoading disabled : Bool) : Bool :=
  decide (0 < (jsTrim prompt).length) && !(decide (MAX_PROMPT_LENGTH < prompt.length))
    && !isLoading && !disabled

/-! ## The blob URL manager (`src/lib/blobURLManager.ts`) -/

/-- The binary source handed to `getOrCreateURL`: a `File` (with `name`,
`size`, `lastModified`) or an anonymous `Blob` (with `size`, `type`). -/
inductive BlobSource where
  | file (name : String) (size : Nat) (lastModified : Int)
  | blob (size : Nat) (mimeType : String)
deriving DecidableEq

/-- The derived source identity.  `createSourceKey` builds the strings
`file_<name>_<size>_<lastModified>` and `blob_<size>_<type>_<Date.now()>`;
since `size`, `lastModified` and `Date.now()` print without underscores,
that encoding is injective in its components, so the key is modelled as
the structured tuple it encodes. -/
inductive SourceKey where
  | file (name : String) (size : Nat) (lastModified : Int)
  | blob (size : Nat) (mimeType : String) (time : Int)
deriving DecidableEq

/-- `createSourceKey` (`src/lib/blobURLManager.ts` lines 20–25).  File keys
are time-independent; anonymous blob keys embed the current `Date.now()`
value `now`. -/
def createSourceKey (now : Int) : BlobSource → SourceKey
  | .file name size lastModified => .file name size lastModified
  | .blob size mimeType => .blob size mimeType now

/-- `BlobURLReference` (`src/lib/blobURLManager.ts`).  `URL.createObjectURL`
returns a fresh opaque string; URLs are modelled as the values of the
allocation counter (`Nat`), which captures exactly their freshness. -/
structure BlobURLReference where
  url : Nat
  refCount : Int
  source : BlobSource
  sourceKey : SourceKey
  createdAt : Int
deriving DecidableEq

/-- `Map.prototype.get`: first (= only) binding of the key. -/
def mapGet [DecidableEq κ] (m : List (κ × β)) (k : κ) : Option β :=
  match m with
  | [] => none
  | p :: rest => if p.1 = k then some p.2 else mapGet rest k

/-- `Map.prototype.set`: replace the binding in place, or append a new one. -/
def mapSet [DecidableEq κ] (m : List (κ × β)) (k : κ) (v : β) : List (κ × β) :=
  match m with
  | [] => [(k, v)]
  | p :: rest => if p.1 = k then (k, v) :: rest else p :: mapSet rest k v

/-- `Map.prototype.delete`: drop the binding of the key. -/
def mapDelete [DecidableEq κ] (m : List (κ × β)) (k : κ) : List (κ × β) :=
  match m with
  | [] => []
  | p :: rest => if p.1 = k then mapDelete rest k else p :: mapDelete rest k

/-- The manager's state: `urlMap : Map<string, BlobURLReference>`,
`sourceKeyMap : Map<string, string>` (sourceKey → url), plus the platform's
URL allocator, modelled as a counter so each created URL is fresh. -/
structure BlobURLManager where
  urlMap : List (Nat × BlobURLReference)
  sourceKeyMap : List (SourceKey × Nat)
  nextURL : Nat
deriving DecidableEq

/-- A manager with no registered URLs (the module's singleton at load). -/
def initManager : BlobURLManager :=
  { urlMap := [], sourceKeyMap := [], nextURL := 0 }

/-- `getOrCreateURL` (`src/lib/blobURLManager.ts` lines 30–57): if a live
reference for the derived key exists, bump its `refCount` and return its
URL; otherwise allocate a fresh URL and register a reference with
`refCount = 1`. -/
def getOrCreateURL (now : Int) (source : BlobSource) (m : BlobURLManager) :
    Nat × BlobURLManager :=
  let sourceKey := createSourceKey now source
  match mapGet m.sourceKeyMap sourceKey with
  | some existingURL =>
    match mapGet m.urlMap existingURL with
    | some ref =>
      let bumped := { ref with refCount := ref.refCount + 1 }
      (existingURL, { m with urlMap := mapSet m.urlMap existingURL bumped })
    | none =>
      let url := m.nextURL
      let reference : BlobURLReference :=
        { url := url, refCount := 1, source := source,
          sourceKey := sourceKey, createdAt := now }
      (url, { m with urlMap := mapSet m.urlMap url reference,
                     sourceKeyMap := mapSet m.sourceKeyMap sourceKey url,
                     nextURL := m.nextURL + 1 })
  | none =>
    let url := m.nextURL
    let reference : BlobURLReference :=
      { url := url, refCount := 1, source := source,
        sourceKey := sourceKey, createdAt := now }
    (url, { m with urlMap := mapSet m.urlMap url reference,
                   sourceKeyMap := mapSet m.sourceKeyMap sourceKey url,
                   nextURL := m.nextURL + 1 })

/-- `revokeURL` (`src/lib/blobURLManager.ts` lines 83–98): unknown URLs are
a warned no-op; otherwise the platform revocation runs (modelled as total,
its `catch` never fires) and both map entries are removed. -/
def revokeURL (url : Nat) (m : BlobURLManager) : BlobURLManager :=
  match mapGet m.urlMap url with
  | none => m
  | some reference =>
    { m with urlMap := mapDelete m.urlMap url,
             sourceKeyMap := mapDelete m.sourceKeyMap reference.sourceKey }

/-- `releaseURL` (`src/lib/blobURLManager.ts` lines 62–78): unknown URLs
are a logged no-op; otherwise `refCount` is decremented in place and the
URL revoked when it drops to `<= 0`. -/
def releaseURL (url : Nat) (m : BlobURLManager) : BlobURLManager :=
  match mapGet m.urlMap url with
  | none => m
  | some reference =>
    let updated := { reference with refCount := reference.refCount - 1 }
    let m2 := { m with urlMap := mapSet m.urlMap url updated }
    if updated.refCount ≤ 0 then revokeURL url m2 else m2

/-- `getRefCount` (`src/lib/blobURLManager.ts` lines 103–105):
`urlMap.get(url)?.refCount || 0`. -/
def getRefCount (url : Nat) (m : BlobURLManager) : Int :=
  match mapGet m.urlMap url with
  | some reference => reference.refCount
  | none => 0

/-- `isManaged` (`src/lib/blobURLManager.ts`). -/
def isManaged (url : Nat) (m : BlobURLManager) : Bool :=
  (mapGet m.urlMap url).isSome

/-- `cleanup` (`src/lib/blobURLManager.ts` lines 118–132): collect the URLs
whose `refCount <= 0` and whose age exceeds `maxAge`, then revoke each. -/
def cleanup (now : Int) (maxAge : Int) (m : BlobURLManager) : BlobURLManager :=
  let urlsToRevoke :=
    (m.urlMap.filter (fun p => decide (p.2.refCount ≤ 0 ∧ maxAge < now - p.2.createdAt))).map
      (fun p => p.1)
  urlsToRevoke.foldl (fun acc url => revokeURL url acc) m

/-- One call into the manager, for reachability arguments. -/
inductive MOp where
  | acquire (now : Int) (source : BlobSource)
  | release (url : Nat)
  | revoke (url : Nat)
  | sweep (now : Int) (maxAge : Int)
deriving DecidableEq

/-- Apply one call (the URL returned by `acquire` is dropped here). -/
def applyMOp (m : BlobURLManager) : MOp → BlobURLManager
  | .acquire now source => (getOrCreateURL now source m).2
  | .release url => releaseURL url m
  | .revoke url => revokeURL url m
  | .sweep now maxAge => cleanup now maxAge m

/-- States of the singleton manager reachable by a call sequence. -/
def runManager (ops : List MOp) : BlobURLManager :=
  ops.foldl applyMOp initManager

/-! ## Reachable history states of one session -/

/-- One user-visible event that touches the history list: a fresh upload
(`handleImageSelect`), the completion of a generate request
(`handleGenerateFinish`, with an arbitrary outcome), a revert, the
persist/restore cycle (`saveHistory` in this session, `loadHistory` in the
next mount), and the clear action of the unnamed page variant. -/
inductive HOp where
  | upload (newId : String) (base64Data : String) (now : Int)
  | generate (newId : String) (now : Int) (result : EditResult)
  | revert (historyId : String)
  | persistRestore
  | clearAll

/-- Apply one event.  `persistRestore` is the next session's mount: a fresh
initial state hydrated from what this session persisted. -/
def applyHOp (st : AppState) : HOp → AppState
  | .upload newId base64Data now => handleImageSelect newId base64Data now st
  | .generate newId now result => handleGenerateFinish newId now result st
  | .revert historyId => handleRevert historyId st
  | .persistRestore => hydrateFromStorage (saveHistory st.imageHistory) initAppState
  | .clearAll => handleClear st

/-- App states reachable by a sequence of history events. -/
def runHistory (ops : List HOp) : AppState :=
  ops.foldl applyHOp initAppState

/-! ## Acquire/release sequences on a single source (claim C1) -/

/-- Release against the manager through a held URL: callers hold the URL
their acquire returned, which is the live URL of the source's key while
one exists.  Once the entry was revoked the held URL is unknown to the
manager and `releaseURL` is a no-op (URLs are never reissued), so the
no-live-entry case leaves the state unchanged. -/
def releaseOfSource (now : Int) (source : BlobSource) (m : BlobURLManager) :
    BlobURLManager :=
  match mapGet m.sourceKeyMap (createSourceKey now source) with
  | some url => releaseURL url m
  | none => m

/-- Run a sequence of acquires (`true`) and releases (`false`) of the one
source, left to right.  The timestamp is irrelevant for file-backed
sources (their key does not mention it) and is fixed at 0. -/
def runSourceSeq (source : BlobSource) : List Bool → BlobURLManager → BlobURLManager
  | [], m => m
  | true :: rest, m => runSourceSeq source rest (getOrCreateURL 0 source m).2
  | false :: rest, m => runSourceSeq source rest (releaseOfSource 0 source m)

/-- The net outstanding count of a source: the `refCount` of the live URL
of its key, or 0 when none is registered. -/
def sourceRefCount (now : Int) (source : BlobSource) (m : BlobURLManager) : Int :=
  match mapGet m.sourceKeyMap (createSourceKey now source) with
  | some url => getRefCount url m
  | none => 0

/-- The running acquire/release balance: each acquire adds one, each
release subtracts one with truncation at zero (an over-release is a no-op). -/
def netBalance (seq : List Bool) : Nat :=
  seq.foldl (fun c b => if b then c + 1 else c - 1) 0

/-! ## Association-map lemmas -/

theorem mapGet_mapSet_self [DecidableEq κ] (m : List (κ × β)) (k : κ) (v : β) :
    mapGet (mapSet m k v) k = some v := by
  induction m with
  | nil => simp [mapGet, mapSet]
  | cons p rest ih =>
    by_cases h : p.1 = k
    · simp [mapGet, mapSet, h]
    · simp [mapGet, mapSet, h, ih]

theorem mapGet_mapSet_ne [DecidableEq κ] (m : List (κ × β)) (k k' : κ) (v : β)
    (h : k' ≠ k) : mapGet (mapSet m k v) k' = mapGet m k' := by
  have hks : ¬(k = k') := fun hh => h (Eq.symm hh)
  induction m with
  | nil => simp [mapGet, mapSet, hks]
  | cons p rest ih =>
    by_cases h1 : p.1 = k
    · subst h1
      simp [mapGet, mapSet, hks]
    · simp only [mapSet, h1, if_neg, not_false_iff]
      by_cases h2 : p.1 = k'
      · simp [mapGet, h2]
      · simp [mapGet, h2, ih]

theorem mem_mapSet [DecidableEq κ] {m : List (κ × β)} {k : κ} {v : β} {p : κ × β}
    (h : p ∈ mapSet m k v) : p ∈ m ∨ p = (k, v) := by
  induction m with
  | nil => simpa [mapSet] using h
  | cons q rest ih =>
    by_cases h1 : q.1 = k
    · simp only [mapSet, h1, if_pos] at h
      rcases List.mem_cons.mp h with h2 | h2
      · exact Or.inr h2
      · exact Or.inl (List.mem_cons_of_mem _ h2)
    · simp only [mapSet, h1, if_neg, not_false_iff] at h
      rcases List.mem_cons.mp h with h2 | h2
      · exact Or.inl (h2 ▸ List.mem_cons_self _ _)
      · rcases ih h2 with h3 | h3
        · exact Or.inl (List.mem_cons_of_mem _ h3)
        · exact Or.inr h3

theorem mapGet_mapDelete_self [DecidableEq κ] (m : List (κ × β)) (k : κ) :
    mapGet (mapDelete m k) k = none := by
  induction m with
  | nil => simp [mapGet, mapDelete]
  | cons p rest ih =>
    by_cases h : p.1 = k
    · simp [mapDelete, h, ih]
    · simp [mapGet, mapDelete, h, ih]

theorem mapGet_mapDelete_ne [DecidableEq κ] (m : List (κ × β)) (k k' : κ)
    (h : k' ≠ k) : mapGet (mapDelete m k) k' = mapGet m k' := by
  have h3 : ¬(k = k') := fun hh => h (Eq.symm hh)
  induction m with
  | nil => simp [mapDelete]
  | cons p rest ih =>
    by_cases h1 : p.1 = k
    · subst h1
      simp [mapGet, mapDelete, h3, ih]
    · simp [mapGet, mapDelete, h1, ih]

theorem mem_mapDelete [DecidableEq κ] {m : List (κ × β)} {k : κ} {p : κ × β}
    (h : p ∈ mapDelete m k) : p ∈ m := by
  induction m with
  | nil => simp [mapDelete] at h
  | cons q rest ih =>
    by_cases h1 : q.1 = k
    · simp only [mapDelete, h1, if_pos] at h
      exact List.mem_cons_of_mem _ (ih h)
    · simp only [mapDelete, h1, if_neg, not_false_iff] at h
      rcases List.mem_cons.mp h with h2 | h2
      · exact h2 ▸ List.mem_cons_self _ _
      · exact List.mem_cons_of_mem _ (ih h2)

theorem mapGet_mem [DecidableEq κ] {m : List (κ × β)} {k : κ} {v : β}
    (h : mapGet m k = some v) : (k, v) ∈ m := by
  induction m with
  | nil => simp [mapGet] at h
  | cons p rest ih =>
    by_cases h1 : p.1 = k
    · simp only [mapGet, h1, if_pos, Option.some.injEq] at h
      subst h
      subst h1
      exact List.mem_cons.mpr (Or.inl rfl)
    · simp only [mapGet, h1, if_neg, not_false_iff] at h
      exact List.mem_cons_of_mem _ (ih h)

theorem mapDelete_mapSet [DecidableEq κ] (m : List (κ × β)) (k : κ) (v : β) :
    mapDelete (mapSet m k v) k = mapDelete m k := by
  induction m with
  | nil => simp [mapSet, mapDelete]
  | cons p rest ih =>
    by_cases h : p.1 = k
    · simp [mapSet, mapDelete, h]
    · simp [mapSet, mapDelete, h, ih]

/-! ## `find` / `findIndex` lemmas -/

theorem jsFind_isSome_iff_findIndexOpt (p : α → Bool) (l : List α) :
    (jsFind p l).isSome ↔ (findIndexOpt p l).isSome := by
  induction l with
  | nil => simp [jsFind, findIndexOpt]
  | cons x xs ih =>
    by_cases h : p x
    · simp [jsFind, findIndexOpt, h]
    · simp only [jsFind, findIndexOpt, h, Bool.false_eq_true, if_neg, not_false_iff]
      cases hfi : findIndexOpt p xs with
      | none => simpa [hfi] using ih
      | some j => simpa [hfi] using ih

theorem findIndexOpt_lt_length (p : α → Bool) (l : List α) (i : Nat)
    (h : findIndexOpt p l = some i) : i < l.length := by
  induction l generalizing i with
  | nil => simp [findIndexOpt] at h
  | cons x xs ih =>
    simp only [List.length_cons]
    by_cases h1 : p x
    · simp only [findIndexOpt, h1, if_pos, Option.some.injEq] at h
      omega
    · simp only [findIndexOpt, h1, Bool.false_eq_true, if_neg, not_false_iff] at h
      cases hfi : findIndexOpt p xs with
      | none => rw [hfi] at h; simp at h
      | some j =>
        rw [hfi] at h
        simp only [Option.map_some', Option.some.injEq] at h
        have := ih j hfi
        omega

theorem findIndexOpt_take (p : α → Bool) (l : List α) (i : Nat)
    (h : findIndexOpt p l = some i) :
    findIndexOpt p (l.take (i + 1)) = some i := by
  induction l generalizing i with
  | nil => simp [findIndexOpt] at h
  | cons x xs ih =>
    by_cases h1 : p x
    · simp only [findIndexOpt, h1, if_pos, Option.some.injEq] at h
      subst h
      simp [findIndexOpt, h1]
    · simp only [findIndexOpt, h1, Bool.false_eq_true, if_neg, not_false_iff] at h
      cases hfi : findIndexOpt p xs with
      | none => rw [hfi] at h; simp at h
      | some j =>
        rw [hfi] at h
        simp only [Option.map_some', Option.some.injEq] at h
        subst h
        simp only [List.take_succ_cons, findIndexOpt, h1, Bool.false_eq_true,
          if_neg, not_false_iff]
        rw [ih j hfi]
        rfl

theorem jsFind_take (p : α → Bool) (l : List α) (i : Nat)
    (h : findIndexOpt p l = some i) :
    jsFind p (l.take (i + 1)) = jsFind p l := by
  induction l generalizing i with
  | nil => simp [findIndexOpt] at h
  | cons x xs ih =>
    by_cases h1 : p x
    · simp only [findIndexOpt, h1, if_pos, Option.some.injEq] at h
      subst h
      simp [jsFind, h1]
    · simp only [findIndexOpt, h1, Bool.false_eq_true, if_neg, not_false_iff] at h
      cases hfi : findIndexOpt p xs with
      | none => rw [hfi] at h; simp at h
      | some j =>
        rw [hfi] at h
        simp only [Option.map_some', Option.some.injEq] at h
        subst h
        simp only [List.take_succ_cons, jsFind, h1, Bool.false_eq_true,
          if_neg, not_false_iff]
        exact ih j hfi

theorem jsFind_isSome_of_mem {l : List HistoryItem} {historyId : String}
    (h : historyId ∈ l.map (fun it => it.id)) :
    (jsFind (fun it : HistoryItem => it.id == historyId) l).isSome := by
  induction l with
  | nil => simp at h
  | cons x xs ih =>
    by_cases h1 : x.id == historyId
    · simp [jsFind, h1]
    · simp only [jsFind, h1, Bool.false_eq_true, if_neg, not_false_iff]
      rcases List.mem_map.mp h with ⟨y, hy, hid⟩
      rcases List.mem_cons.mp hy with rfl | hy2
      · exact absurd (by simp [hid]) h1
      · exact ih (List.mem_map.mpr ⟨y, hy2, hid⟩)

/-! ## Persistence round-trip helpers -/

theorem validateItem_encodeItem (it : HistoryItem) :
    validateItem (encodeItem it) = some true := rfl

theorem decodeItem_encodeItem (it : HistoryItem) :
    decodeItem (encodeItem it) = it := rfl

theorem filterValidate_encode (l : List HistoryItem) :
    filterValidate (l.map encodeItem) = some (l.map encodeItem) := by
  induction l with
  | nil => rfl
  | cons it rest ih => simp [filterValidate, validateItem_encodeItem, ih]

/-- Persist then restore gives back the suffix retained by the cap. -/
theorem loadHistory_saveHistory (history : List HistoryItem) :
    loadHistory (saveHistory history) =
      history.drop (history.length - MAX_HISTORY_ITEMS) := by
  simp only [loadHistory, saveHistory, filterValidate_encode, List.map_map]
  have h : (decodeItem ∘ encodeItem) = id := funext decodeItem_encodeItem
  rw [h, List.map_id]

/-! ## Manager operation equations -/

theorem getOrCreateURL_dedup {m : BlobURLManager} {now : Int} {src : BlobSource}
    {u0 : Nat} {ref : BlobURLReference}
    (hsk : mapGet m.sourceKeyMap (createSourceKey now src) = some u0)
    (hu : mapGet m.urlMap u0 = some ref) :
    getOrCreateURL now src m =
      (u0, { m with urlMap := mapSet m.urlMap u0 { ref with refCount := ref.refCount + 1 } }) := by
  simp only [getOrCreateURL, hsk, hu]

theorem getOrCreateURL_create_of_no_key {m : BlobURLManager} {now : Int} {src : BlobSource}
    (hsk : mapGet m.sourceKeyMap (createSourceKey now src) = none) :
    getOrCreateURL now src m =
      (m.nextURL,
        { m with
            urlMap := mapSet m.urlMap m.nextURL
              { url := m.nextURL, refCount := 1, source := src,
                sourceKey := createSourceKey now src, createdAt := now },
            sourceKeyMap := mapSet m.sourceKeyMap (createSourceKey now src) m.nextURL,
            nextURL := m.nextURL + 1 }) := by
  simp only [getOrCreateURL, hsk]

theorem getOrCreateURL_create_of_stale {m : BlobURLManager} {now : Int} {src : BlobSource}
    {u0 : Nat}
    (hsk : mapGet m.sourceKeyMap (createSourceKey now src) = some u0)
    (hu : mapGet m.urlMap u0 = none) :
    getOrCreateURL now src m =
      (m.nextURL,
        { m with
            urlMap := mapSet m.urlMap m.nextURL
              { url := m.nextURL, refCount := 1, source := src,
                sourceKey := createSourceKey now src, createdAt := now },
            sourceKeyMap := mapSet m.sourceKeyMap (createSourceKey now src) m.nextURL,
            nextURL := m.nextURL + 1 }) := by
  simp only [getOrCreateURL, hsk, hu]

theorem revokeURL_unknown {m : BlobURLManager} {url : Nat}
    (h : mapGet m.urlMap url = none) : revokeURL url m = m := by
  simp only [revokeURL, h]

theorem revokeURL_known {m : BlobURLManager} {url : Nat} {ref : BlobURLReference}
    (h : mapGet m.urlMap url = some ref) :
    revokeURL url m =
      { m with urlMap := mapDelete m.urlMap url,
               sourceKeyMap := mapDelete m.sourceKeyMap ref.sourceKey } := by
  simp only [revokeURL, h]

theorem releaseURL_unknown {m : BlobURLManager} {url : Nat}
    (h : mapGet m.urlMap url = none) : releaseURL url m = m := by
  simp only [releaseURL, h]

theorem releaseURL_alive {m : BlobURLManager} {url : Nat} {ref : BlobURLReference}
    (h : mapGet m.urlMap url = some ref) (hc : ¬ ref.refCount - 1 ≤ 0) :
    releaseURL url m =
      { m with urlMap := mapSet m.urlMap url { ref with refCount := ref.refCount - 1 } } := by
  simp [releaseURL, h, hc]

theorem releaseURL_toZero {m : BlobURLManager} {url : Nat} {ref : BlobURLReference}
    (h : mapGet m.urlMap url = some ref) (hc : ref.refCount - 1 ≤ 0) :
    releaseURL url m = revokeURL url m := by
  have hget : mapGet (mapSet m.urlMap url { ref with refCount := ref.refCount - 1 }) url =
      some { ref with refCount := ref.refCount - 1 } := mapGet_mapSet_self _ _ _
  simp only [releaseURL, h, hc, if_pos]
  rw [revokeURL_known hget, revokeURL_known h]
  simp [mapDelete_mapSet]

/-! ## The registry invariant and its preservation -/

/-- Invariant of the manager's registry: every registered reference has a
positive count (a reference reaching 0 is removed on the spot), every
registered URL was allocated below the counter (URLs are never reissued),
and the two maps agree — a registered reference is indexed by its own URL
and its key points back at that URL, and a key binding points at a live
reference carrying that key. -/
structure ManagerInv (m : BlobURLManager) : Prop where
  pos : ∀ p ∈ m.urlMap, 1 ≤ p.2.refCount
  fresh : ∀ p ∈ m.urlMap, p.1 < m.nextURL
  urlCoh : ∀ u r, mapGet m.urlMap u = some r →
    r.url = u ∧ mapGet m.sourceKeyMap r.sourceKey = some u
  keyCoh : ∀ k u, mapGet m.sourceKeyMap k = some u →
    ∃ r, mapGet m.urlMap u = some r ∧ r.sourceKey = k

theorem ManagerInv_init : ManagerInv initManager := by
  constructor <;> simp [initManager, mapGet]

theorem mapGet_nextURL_none {m : BlobURLManager} (hInv : ManagerInv m) :
    mapGet m.urlMap m.nextURL = none := by
  cases hg : mapGet m.urlMap m.nextURL with
  | none => rfl
  | some r =>
    have hmem := mapGet_mem hg
    have := hInv.fresh _ hmem
    omega

theorem ManagerInv_create {m : BlobURLManager} {now : Int} {src : BlobSource}
    (hInv : ManagerInv m)
    (hstale : ∀ u, mapGet m.sourceKeyMap (createSourceKey now src) = some u →
      mapGet m.urlMap u = none) :
    ManagerInv
      { m with
          urlMap := mapSet m.urlMap m.nextURL
            { url := m.nextURL, refCount := 1, source := src,
              sourceKey := createSourceKey now src, createdAt := now },
          sourceKeyMap := mapSet m.sourceKeyMap (createSourceKey now src) m.nextURL,
          nextURL := m.nextURL + 1 } := by
  set k := createSourceKey now src with hk
  set ref : BlobURLReference :=
    { url := m.nextURL, refCount := 1, source := src, sourceKey := k, createdAt := now }
    with href
  constructor
  · intro p hp
    rcases mem_mapSet hp with hold | hnew
    · exact hInv.pos _ hold
    · subst hnew
      norm_num [href]
  · intro p hp
    rcases mem_mapSet hp with hold | hnew
    · have := hInv.fresh _ hold
      simp only
      omega
    · subst hnew
      simp only
      omega
  · intro u r hget
    by_cases hu : u = m.nextURL
    · subst hu
      rw [mapGet_mapSet_self] at hget
      injection hget with hget
      subst hget
      refine ⟨rfl, ?_⟩
      simpa [href] using mapGet_mapSet_self m.sourceKeyMap k m.nextURL
    · rw [mapGet_mapSet_ne _ _ _ _ hu] at hget
      obtain ⟨hurl, hkey⟩ := hInv.urlCoh u r hget
      refine ⟨hurl, ?_⟩
      by_cases hks : r.sourceKey = k
      · exfalso
        rw [hks] at hkey
        have := hstale u hkey
        rw [this] at hget
        exact Option.noConfusion hget
      · simpa [mapGet_mapSet_ne _ _ _ _ hks] using hkey
  · intro k' u hget
    by_cases hks : k' = k
    · subst hks
      rw [mapGet_mapSet_self] at hget
      injection hget with hget
      subst hget
      exact ⟨ref, mapGet_mapSet_self _ _ _, rfl⟩
    · rw [mapGet_mapSet_ne _ _ _ _ hks] at hget
      obtain ⟨r, hr, hrk⟩ := hInv.keyCoh k' u hget
      have hu : u ≠ m.nextURL := by
        intro hc
        subst hc
        rw [mapGet_nextURL_none hInv] at hr
        exact Option.noConfusion hr
      exact ⟨r, by rw [mapGet_mapSet_ne _ _ _ _ hu]; exact hr, hrk⟩

theorem ManagerInv_getOrCreateURL {m : BlobURLManager} (now : Int) (src : BlobSource)
    (hInv : ManagerInv m) : ManagerInv (getOrCreateURL now src m).2 := by
  cases hsk : mapGet m.sourceKeyMap (createSourceKey now src) with
  | none =>
    rw [getOrCreateURL_create_of_no_key hsk]
    exact ManagerInv_create hInv (fun u hu => by rw [hsk] at hu; exact Option.noConfusion hu)
  | some u0 =>
    cases hu : mapGet m.urlMap u0 with
    | none =>
      rw [getOrCreateURL_create_of_stale hsk hu]
      refine ManagerInv_create hInv (fun u hget => ?_)
      rw [hsk] at hget
      injection hget with hget
      subst hget
      exact hu
    | some ref =>
      rw [getOrCreateURL_dedup hsk hu]
      set bumped : BlobURLReference := { ref with refCount := ref.refCount + 1 } with hb
      constructor
      · intro p hp
        rcases mem_mapSet hp with hold | hnew
        · exact hInv.pos _ hold
        · subst hnew
          have h1 : 1 ≤ ref.refCount := hInv.pos (u0, ref) (mapGet_mem hu)
          show 1 ≤ ref.refCount + 1
          omega
      · intro p hp
        rcases mem_mapSet hp with hold | hnew
        · exact hInv.fresh _ hold
        · subst hnew
          exact hInv.fresh (u0, ref) (mapGet_mem hu)
      · intro u r hget
        by_cases huu : u = u0
        · rw [huu, mapGet_mapSet_self] at hget
          injection hget with hget
          subst hget
          obtain ⟨hurl, hkey⟩ := hInv.urlCoh u0 ref hu
          constructor
          · show ref.url = u
            rw [huu, hurl]
          · show mapGet m.sourceKeyMap ref.sourceKey = some u
            rw [huu, hkey]
        · rw [mapGet_mapSet_ne _ _ _ _ huu] at hget
          exact hInv.urlCoh u r hget
      · intro k' u hget
        obtain ⟨r, hr, hrk⟩ := hInv.keyCoh k' u hget
        by_cases huu : u = u0
        · have hrr : ref = r := by
            rw [huu, hu] at hr
            injection hr
          refine ⟨bumped, ?_, ?_⟩
          · rw [huu]
            exact mapGet_mapSet_self _ _ _
          · show ref.sourceKey = k'
            rw [hrr]
            exact hrk
        · exact ⟨r, by rw [mapGet_mapSet_ne _ _ _ _ huu]; exact hr, hrk⟩

theorem ManagerInv_revokeURL {m : BlobURLManager} (url : Nat)
    (hInv : ManagerInv m) : ManagerInv (revokeURL url m) := by
  cases hg : mapGet m.urlMap url with
  | none => rw [revokeURL_unknown hg]; exact hInv
  | some ref =>
    rw [revokeURL_known hg]
    constructor
    · intro p hp
      exact hInv.pos _ (mem_mapDelete hp)
    · intro p hp
      exact hInv.fresh _ (mem_mapDelete hp)
    · intro u r hget
      by_cases huu : u = url
      · subst huu
        rw [mapGet_mapDelete_self] at hget
        exact Option.noConfusion hget
      · rw [mapGet_mapDelete_ne _ _ _ huu] at hget
        obtain ⟨hurl, hkey⟩ := hInv.urlCoh u r hget
        refine ⟨hurl, ?_⟩
        by_cases hks : r.sourceKey = ref.sourceKey
        · exfalso
          rw [hks] at hkey
          obtain ⟨_, hkeyurl⟩ := hInv.urlCoh url ref hg
          rw [hkey] at hkeyurl
          injection hkeyurl with hkeyurl
          exact huu hkeyurl
        · rw [mapGet_mapDelete_ne _ _ _ hks]
          exact hkey
    · intro k' u hget
      by_cases hks : k' = ref.sourceKey
      · subst hks
        rw [mapGet_mapDelete_self] at hget
        exact Option.noConfusion hget
      · rw [mapGet_mapDelete_ne _ _ _ hks] at hget
        obtain ⟨r, hr, hrk⟩ := hInv.keyCoh k' u hget
        have huu : u ≠ url := by
          intro hc
          subst hc
          rw [hg] at hr
          injection hr with hr
          subst hr
          exact hks hrk.symm
        exact ⟨r, by rw [mapGet_mapDelete_ne _ _ _ huu]; exact hr, hrk⟩

theorem ManagerInv_releaseURL {m : BlobURLManager} (url : Nat)
    (hInv : ManagerInv m) : ManagerInv (releaseURL url m) := by
  cases hg : mapGet m.urlMap url with
  | none => rw [releaseURL_unknown hg]; exact hInv
  | some ref =>
    by_cases hc : ref.refCount - 1 ≤ 0
    · rw [releaseURL_toZero hg hc]
      exact ManagerInv_revokeURL url hInv
    · rw [releaseURL_alive hg hc]
      set upd : BlobURLReference := { ref with refCount := ref.refCount - 1 } with hupd
      constructor
      · intro p hp
        rcases mem_mapSet hp with hold | hnew
        · exact hInv.pos _ hold
        · subst hnew
          show 1 ≤ ref.refCount - 1
          omega
      · intro p hp
        rcases mem_mapSet hp with hold | hnew
        · exact hInv.fresh _ hold
        · subst hnew
          exact hInv.fresh (url, ref) (mapGet_mem hg)
      · intro u r hget
        by_cases huu : u = url
        · rw [huu, mapGet_mapSet_self] at hget
          injection hget with hget
          subst hget
          obtain ⟨hurl, hkey⟩ := hInv.urlCoh url ref hg
          constructor
          · show ref.url = u
            rw [huu, hurl]
          · show mapGet m.sourceKeyMap ref.sourceKey = some u
            rw [huu, hkey]
        · rw [mapGet_mapSet_ne _ _ _ _ huu] at hget
          exact hInv.urlCoh u r hget
      · intro k' u hget
        obtain ⟨r, hr, hrk⟩ := hInv.keyCoh k' u hget
        by_cases huu : u = url
        · have hrr : ref = r := by
            rw [huu, hg] at hr
            injection hr
          refine ⟨upd, ?_, ?_⟩
          · rw [huu]
            exact mapGet_mapSet_self _ _ _
          · show ref.sourceKey = k'
            rw [hrr]
            exact hrk
        · exact ⟨r, by rw [mapGet_mapSet_ne _ _ _ _ huu]; exact hr, hrk⟩

theorem ManagerInv_revokeFold (urls : List Nat) (m : BlobURLManager)
    (hInv : ManagerInv m) :
    ManagerInv (urls.foldl (fun acc url => revokeURL url acc) m) := by
  induction urls generalizing m with
  | nil => exact hInv
  | cons u rest ih => exact ih _ (ManagerInv_revokeURL u hInv)

theorem ManagerInv_cleanup {m : BlobURLManager} (now maxAge : Int)
    (hInv : ManagerInv m) : ManagerInv (cleanup now maxAge m) :=
  ManagerInv_revokeFold _ m hInv

theorem ManagerInv_applyMOp {m : BlobURLManager} (op : MOp)
    (hInv : ManagerInv m) : ManagerInv (applyMOp m op) := by
  cases op with
  | acquire now src => exact ManagerInv_getOrCreateURL now src hInv
  | release url => exact ManagerInv_releaseURL url hInv
  | revoke url => exact ManagerInv_revokeURL url hInv
  | sweep now maxAge => exact ManagerInv_cleanup now maxAge hInv

theorem ManagerInv_runManager (ops : List MOp) : ManagerInv (runManager ops) := by
  have main : ∀ (l : List MOp) (m : BlobURLManager), ManagerInv m →
      ManagerInv (l.foldl applyMOp m) := by
    intro l
    induction l with
    | nil => intro m hm; exact hm
    | cons op rest ih => intro m hm; exact ih _ (ManagerInv_applyMOp op hm)
  exact main ops initManager ManagerInv_init

/-! ## Shape of the registry under a single-source call sequence -/

/-- After a balanced prefix the registry is empty again; while the balance
is positive it holds exactly one reference, for this source's key, with
that balance as its count. -/
def SourceShape (k : SourceKey) : Nat → BlobURLManager → Prop
  | 0, m => m.urlMap = [] ∧ m.sourceKeyMap = []
  | c + 1, m => ∃ u r, m.urlMap = [(u, r)] ∧ m.sourceKeyMap = [(k, u)] ∧
      r.refCount = (c : Int) + 1 ∧ r.sourceKey = k ∧ r.url = u

theorem SourceShape_init (k : SourceKey) : SourceShape k 0 initManager :=
  ⟨rfl, rfl⟩

theorem SourceShape_acquire {src : BlobSource} {c : Nat} {m : BlobURLManager}
    (h : SourceShape (createSourceKey 0 src) c m) :
    SourceShape (createSourceKey 0 src) (c + 1) (getOrCreateURL 0 src m).2 := by
  cases c with
  | zero =>
    obtain ⟨hu, hs⟩ := h
    have hsk : mapGet m.sourceKeyMap (createSourceKey 0 src) = none := by
      rw [hs]; rfl
    rw [getOrCreateURL_create_of_no_key hsk]
    simp only [SourceShape]
    refine ⟨m.nextURL,
      { url := m.nextURL, refCount := 1, source := src,
        sourceKey := createSourceKey 0 src, createdAt := 0 }, ?_, ?_, ?_, rfl, rfl⟩
    · rw [hu]; rfl
    · rw [hs]; rfl
    · norm_num
  | succ c =>
    obtain ⟨u, r, hu, hs, hrc, hrk, hru⟩ := h
    have hsk : mapGet m.sourceKeyMap (createSourceKey 0 src) = some u := by
      rw [hs]; simp [mapGet]
    have hur : mapGet m.urlMap u = some r := by
      rw [hu]; simp [mapGet]
    rw [getOrCreateURL_dedup hsk hur]
    simp only [SourceShape]
    refine ⟨u, { r with refCount := r.refCount + 1 }, ?_, hs, ?_, hrk, hru⟩
    · rw [hu]; simp [mapSet]
    · rw [hrc]; push_cast; ring

theorem SourceShape_release {src : BlobSource} {c : Nat} {m : BlobURLManager}
    (h : SourceShape (createSourceKey 0 src) c m) :
    SourceShape (createSourceKey 0 src) (c - 1) (releaseOfSource 0 src m) := by
  cases c with
  | zero =>
    obtain ⟨hu, hs⟩ := h
    have hsk : mapGet m.sourceKeyMap (createSourceKey 0 src) = none := by
      rw [hs]; rfl
    unfold releaseOfSource
    rw [hsk]
    exact ⟨hu, hs⟩
  | succ c =>
    obtain ⟨u, r, hu, hs, hrc, hrk, hru⟩ := h
    have hsk : mapGet m.sourceKeyMap (createSourceKey 0 src) = some u := by
      rw [hs]; simp [mapGet]
    have hur : mapGet m.urlMap u = some r := by
      rw [hu]; simp [mapGet]
    have hro : releaseOfSource 0 src m = releaseURL u m := by
      unfold releaseOfSource
      rw [hsk]
    rw [hro]
    cases c with
    | zero =>
      have hc : r.refCount - 1 ≤ 0 := by rw [hrc]; norm_num
      rw [releaseURL_toZero hur hc, revokeURL_known hur]
      simp only [Nat.sub_self, SourceShape]
      constructor
      · rw [hu]; simp [mapDelete]
      · rw [hs, hrk]; simp [mapDelete]
    | succ c2 =>
      have hc : ¬ r.refCount - 1 ≤ 0 := by rw [hrc]; push_cast; omega
      rw [releaseURL_alive hur hc]
      simp only [Nat.succ_sub_one, SourceShape]
      refine ⟨u, { r with refCount := r.refCount - 1 }, ?_, hs, ?_, hrk, hru⟩
      · rw [hu]; simp [mapSet]
      · rw [hrc]; push_cast; ring

theorem sourceRefCount_of_shape {src : BlobSource} {c : Nat} {m : BlobURLManager}
    (h : SourceShape (createSourceKey 0 src) c m) :
    sourceRefCount 0 src m = (c : Int) := by
  cases c with
  | zero =>
    obtain ⟨hu, hs⟩ := h
    unfold sourceRefCount
    rw [hs]
    rfl
  | succ c =>
    obtain ⟨u, r, hu, hs, hrc, hrk, hru⟩ := h
    unfold sourceRefCount
    rw [hs]
    simp only [mapGet, if_pos]
    unfold getRefCount
    rw [hu]
    simp only [mapGet, if_pos]
    rw [hrc]
    push_cast
    ring

theorem runSourceSeq_shape (src : BlobSource) (seq : List Bool) :
    ∀ (m : BlobURLManager) (c : Nat), SourceShape (createSourceKey 0 src) c m →
    SourceShape (createSourceKey 0 src)
      (seq.foldl (fun c b => if b then c + 1 else c - 1) c)
      (runSourceSeq src seq m) := by
  induction seq with
  | nil => intro m c h; exact h
  | cons b rest ih =>
    intro m c h
    cases b
    · exact ih _ _ (SourceShape_release h)
    · exact ih _ _ (SourceShape_acquire h)

/-! ## Handler equations -/

theorem handleRevert_eq_of_not_found {st : AppState} {historyId : String}
    (h : jsFind (fun it : HistoryItem => it.id == historyId) st.imageHistory = none) :
    handleRevert historyId st = st := by
  simp only [handleRevert, h]

theorem handleRevert_eq_of_found {st : AppState} {historyId : String}
    {item : HistoryItem} {i : Nat}
    (hf : jsFind (fun it : HistoryItem => it.id == historyId) st.imageHistory = some item)
    (hi : findIndexOpt (fun it : HistoryItem => it.id == historyId) st.imageHistory = some i) :
    handleRevert historyId st =
      { st with outputImage := some (revertOutputImage item.imageData),
                currentHistoryId := some historyId,
                imageHistory := st.imageHistory.take (i + 1),
                status := .success } := by
  simp only [handleRevert, hf, hi]

theorem handleGenerateFinish_success {st : AppState} {newId : String} {now : Int}
    {d : String} {err : Option String} (hd : d ≠ "") :
    handleGenerateFinish newId now ⟨true, some d, err⟩ st =
      { st with outputImage := some d, status := .success, errorMessage := none,
                imageHistory := st.imageHistory ++
                  [createHistoryItem newId ("data:image/png;base64," ++ d) st.prompt now],
                currentHistoryId := some newId } := by
  simp [handleGenerateFinish, resultTruthyData, hd, createHistoryItem]

theorem handleGenerateFinish_failure {st : AppState} {newId : String} {now : Int}
    {result : EditResult}
    (h : (result.success && resultTruthyData result.data) = false) :
    handleGenerateFinish newId now result st = generateErrorState result st := by
  cases hs : result.success with
  | false => simp [handleGenerateFinish, hs]
  | true =>
    cases hdata : result.data with
    | none => simp [handleGenerateFinish, hs, hdata, resultTruthyData]
    | some d =>
      cases hde : (d == "") with
      | true => simp [handleGenerateFinish, hs, hdata, resultTruthyData, hde]
      | false =>
        rw [hs, hdata] at h
        simp [resultTruthyData, hde] at h

theorem handleGenerateFinishVariant_failure {st : AppState} {newId : String} {now : Int}
    {result : EditResult}
    (h : (result.success && resultTruthyData result.data) = false) :
    handleGenerateFinishVariant newId now result st = generateErrorState result st := by
  cases hs : result.success with
  | false => simp [handleGenerateFinishVariant, hs]
  | true =>
    cases hdata : result.data with
    | none => simp [handleGenerateFinishVariant, hs, hdata, resultTruthyData]
    | some d =>
      cases hde : (d == "") with
      | true => simp [handleGenerateFinishVariant, hs, hdata, resultTruthyData, hde]
      | false =>
        rw [hs, hdata] at h
        simp [resultTruthyData, hde] at h

/-! ## Concrete fixtures used by witnesses and counterexamples -/

def itemA : HistoryItem := createHistoryItem "id-a" "data-a" "" 0 true

def itemB : HistoryItem := createHistoryItem "id-b" "data-b" "prompt-b" 1

def itemC : HistoryItem := createHistoryItem "id-c" "data-c" "prompt-c" 2

/-- 55 accumulated history items, for the retention-cap scenario. -/
def items55 : List HistoryItem :=
  (List.range 55).map (fun n : Nat => createHistoryItem (toString n) "img" "p" (Int.ofNat n))

theorem items55_length : items55.length = 55 := by
  unfold items55
  rw [List.length_map, List.length_range]

/-! ## The claims -/

/-- C3: restore (`loadHistory`) applied to the storage state written by
persist (`saveHistory`) returns the same ordered item list up to the
retention cap of 50 (`slice(-50)` keeps the most recent 50 in their
original relative order); in particular, persisting the 55 accumulated
`items55` stores only the most recent 50 and restore returns exactly
those 50, i.e. `items55.drop 5`. -/
theorem c3_persist_restore_round_trip (history : List HistoryItem) :
    loadHistory (saveHistory history) =
      history.drop (history.length - MAX_HISTORY_ITEMS) ∧
    loadHistory (saveHistory items55) = items55.drop 5 := by
  constructor
  · exact loadHistory_saveHistory history
  · rw [loadHistory_saveHistory, items55_length]
    rfl

/-- C5: `handleRevert` is idempotent — applying it twice in a row with the
same id yields the same `imageHistory` and the same `currentHistoryId` as
applying it once (this also holds when the id is absent, where the handler
returns the state unchanged). -/
theorem c5_revert_idempotent (historyId : String) (st : AppState) :
    (handleRevert historyId (handleRevert historyId st)).imageHistory =
      (handleRevert historyId st).imageHistory ∧
    (handleRevert historyId (handleRevert historyId st)).currentHistoryId =
      (handleRevert historyId st).currentHistoryId := by
  cases hf : jsFind (fun it : HistoryItem => it.id == historyId) st.imageHistory with
  | none =>
    rw [handleRevert_eq_of_not_found hf, handleRevert_eq_of_not_found hf]
    exact ⟨rfl, rfl⟩
  | some item =>
    have hiS : (findIndexOpt (fun it : HistoryItem => it.id == historyId)
        st.imageHistory).isSome := by
      rw [← jsFind_isSome_iff_findIndexOpt, hf]
      rfl
    obtain ⟨i, hi⟩ := Option.isSome_iff_exists.mp hiS
    rw [handleRevert_eq_of_found hf hi]
    set st1 : AppState :=
      { st with outputImage := some (revertOutputImage item.imageData),
                currentHistoryId := some historyId,
                imageHistory := st.imageHistory.take (i + 1),
                status := .success } with hst1
    have him : st1.imageHistory = st.imageHistory.take (i + 1) := by rw [hst1]
    have hf2 : jsFind (fun it : HistoryItem => it.id == historyId) st1.imageHistory
        = some item := by
      rw [him, jsFind_take _ _ _ hi, hf]
    have hi2 : findIndexOpt (fun it : HistoryItem => it.id == historyId) st1.imageHistory
        = some i := by
      rw [him]
      exact findIndexOpt_take _ _ _ hi
    rw [handleRevert_eq_of_found hf2 hi2]
    refine ⟨?_, rfl⟩
    show st1.imageHistory.take (i + 1) = st1.imageHistory
    rw [him, List.take_take]
    simp

/-- C2: under the truncate-then-append policy of the main page
(`handleRevert` truncates at once; a later successful generate appends to
the already-truncated list), a generate success performed after
`handleRevert historyId` yields exactly the kept prefix plus the one new
item: the discarded items never come back, and the length is
(index of the id + 1) + 1.  The id-uniqueness and fresh-id hypotheses
reflect that ids come from `crypto.randomUUID()`. -/
theorem c2_revert_then_append (st : AppState) (historyId newId d : String)
    (now : Int) (err : Option String) (i : Nat)
    (hi : findIndexOpt (fun it : HistoryItem => it.id == historyId) st.imageHistory = some i)
    (hd : d ≠ "")
    (hnd : (st.imageHistory.map (fun it => it.id)).Nodup)
    (hfresh : newId ∉ st.imageHistory.map (fun it => it.id)) :
    (handleGenerateFinish newId now ⟨true, some d, err⟩
        (handleRevert historyId st)).imageHistory =
      st.imageHistory.take (i + 1) ++
        [createHistoryItem newId ("data:image/png;base64," ++ d) st.prompt now] ∧
    (handleGenerateFinish newId now ⟨true, some d, err⟩
        (handleRevert historyId st)).imageHistory.length = (i + 1) + 1 ∧
    ∀ x ∈ st.imageHistory.drop (i + 1),
      x ∉ (handleGenerateFinish newId now ⟨true, some d, err⟩
        (handleRevert historyId st)).imageHistory := by
  have hfS : (jsFind (fun it : HistoryItem => it.id == historyId) st.imageHistory).isSome := by
    rw [jsFind_isSome_iff_findIndexOpt, hi]
    rfl
  obtain ⟨item, hf⟩ := Option.isSome_iff_exists.mp hfS
  rw [handleRevert_eq_of_found hf hi, handleGenerateFinish_success hd]
  have hlen : i + 1 ≤ st.imageHistory.length := findIndexOpt_lt_length _ _ _ hi
  refine ⟨rfl, ?_, ?_⟩
  · show (st.imageHistory.take (i + 1) ++ [_]).length = (i + 1) + 1
    rw [List.length_append, List.length_take]
    simp [Nat.min_eq_left hlen]
  · intro x hx hxmem
    show False
    have hsplit : st.imageHistory.take (i + 1) ++ st.imageHistory.drop (i + 1)
        = st.imageHistory := List.take_append_drop _ _
    rcases List.mem_append.mp hxmem with hxtake | hxnew
    · have hnd2 : ((st.imageHistory.take (i + 1)).map (fun it : HistoryItem => it.id) ++
          (st.imageHistory.drop (i + 1)).map (fun it : HistoryItem => it.id)).Nodup := by
        rw [← List.map_append, hsplit]
        exact hnd
      have hdisj := List.disjoint_of_nodup_append hnd2
      exact hdisj (List.mem_map_of_mem _ hxtake) (List.mem_map_of_mem _ hx)
    · have hxg : x = createHistoryItem newId ("data:image/png;base64," ++ d) st.prompt now := by
        simpa using hxnew
      apply hfresh
      have hxl : x ∈ st.imageHistory := by
        rw [← hsplit]
        exact List.mem_append.mpr (Or.inr hx)
      have : x.id = newId := by rw [hxg]; rfl
      rw [← this]
      exact List.mem_map_of_mem _ hxl

/-- Concrete run of C2: three items, revert to the middle one, generate;
the discarded third item stays gone and the list is the kept two plus the
new one. -/
theorem c2_witness :
    (handleGenerateFinish "id-d" 7 ⟨true, some "img", none⟩
        (handleRevert "id-b" { initAppState with imageHistory := [itemA, itemB, itemC] })).imageHistory =
      [itemA, itemB, createHistoryItem "id-d" "data:image/png;base64,img" "" 7] ∧
    itemC ∉ (handleGenerateFinish "id-d" 7 ⟨true, some "img", none⟩
        (handleRevert "id-b" { initAppState with imageHistory := [itemA, itemB, itemC] })).imageHistory := by
  have h := c2_revert_then_append
    { initAppState with imageHistory := [itemA, itemB, itemC] }
    "id-b" "id-d" "img" 7 none 1
    (by decide) (by decide) (by decide) (by decide)
  constructor
  · rw [h.1]
    decide
  · exact h.2.2 itemC (by decide)

/-- C10: when a generate request fails (the result is unsuccessful or has
no usable data, or the flow throws), the history store is untouched:
`imageHistory` and `currentHistoryId` (and also `imageFile`, `prompt`,
`outputImage`) are unchanged, only `status` and `errorMessage` are set —
for the main page's handler, the variant's handler, and the `catch`
branch alike. -/
theorem c10_generate_failure_frame (st : AppState) (newId : String) (now : Int)
    (result : EditResult)
    (h : (result.success && resultTruthyData result.data) = false) :
    (handleGenerateFinish newId now result st).imageHistory = st.imageHistory ∧
    (handleGenerateFinish newId now result st).currentHistoryId = st.currentHistoryId ∧
    (handleGenerateFinish newId now result st).imageFile = st.imageFile ∧
    (handleGenerateFinish newId now result st).prompt = st.prompt ∧
    (handleGenerateFinish newId now result st).outputImage = st.outputImage ∧
    (handleGenerateFinish newId now result st).status = .error ∧
    (handleGenerateFinish newId now result st).errorMessage =
      some (jsOrDefault result.error "An unexpected error occurred") ∧
    (handleGenerateFinishVariant newId now result st).imageHistory = st.imageHistory ∧
    (handleGenerateFinishVariant newId now result st).currentHistoryId = st.currentHistoryId ∧
    (handleGenerateThrow st).imageHistory = st.imageHistory ∧
    (handleGenerateThrow st).currentHistoryId = st.currentHistoryId := by
  rw [handleGenerateFinish_failure h, handleGenerateFinishVariant_failure h]
  exact ⟨rfl, rfl, rfl, rfl, rfl, rfl, rfl, rfl, rfl, rfl, rfl⟩

/-- Concrete run of C10: a rate-limited failure leaves the two-item
history and the current pointer exactly as they were. -/
theorem c10_witness :
    (handleGenerateFinish "id-d" 7 ⟨false, none, some "Rate limited"⟩
        { initAppState with imageHistory := [itemA, itemB],
                            currentHistoryId := some "id-b" }).imageHistory = [itemA, itemB] ∧
    (handleGenerateFinish "id-d" 7 ⟨false, none, some "Rate limited"⟩
        { initAppState with imageHistory := [itemA, itemB],
                            currentHistoryId := some "id-b" }).currentHistoryId = some "id-b" ∧
    (handleGenerateFinish "id-d" 7 ⟨false, none, some "Rate limited"⟩
        { initAppState with imageHistory := [itemA, itemB],
                            currentHistoryId := some "id-b" }).errorMessage = some "Rate limited" := by
  have h := c10_generate_failure_frame
    { initAppState with imageHistory := [itemA, itemB], currentHistoryId := some "id-b" }
    "id-d" 7 ⟨false, none, some "Rate limited"⟩ (by decide)
  exact ⟨h.1, h.2.1, by rw [h.2.2.2.2.2.2.1]; decide⟩

/-- A state with a request outstanding: an image is selected, the prompt
is nonempty, and `status` is `'loading'`. -/
def loadingState : AppState :=
  { imageFile := true, prompt := "add a hat", outputImage := none,
    status := .loading, errorMessage := none, imageHistory := [itemA],
    currentHistoryId := some "id-a" }

/-- C8 fails as stated: `handleGenerate`'s guard checks only
`state.imageFile` and `state.prompt.trim()`, not `status`, so invoking the
handler in the loading state does start another request (the guard
passes), and the second response then mutates the history and sets
`currentHistoryId`. -/
theorem c8_counterexample :
    (handleGenerateStart loadingState).isSome = true ∧
    (handleGenerateFinish "id-d" 7 ⟨true, some "img", none⟩ loadingState).imageHistory ≠
      loadingState.imageHistory ∧
    (handleGenerateFinish "id-d" 7 ⟨true, some "img", none⟩ loadingState).currentHistoryId =
      some "id-d" := by
  decide

/-- C8, amended: the handler itself does not serialize requests, but the
UI affordances do — while `status = 'loading'` both the page-level
`canGenerate` and the `PromptInput` gate (which receives
`isLoading = (status === 'loading')`) are false, so button- or
Enter-key-driven generation cannot start a second request. -/
theorem c8_loading_disables_generate (st : AppState) (disabled : Bool)
    (h : st.status = .loading) :
    canGenerate st = false ∧
    promptInputCanGenerate st.prompt (st.status == .loading) disabled = false := by
  constructor
  · simp [canGenerate, h]
  · simp [promptInputCanGenerate, h]

/-- Concrete instance of the amended C8 at `loadingState`. -/
theorem c8_witness :
    canGenerate loadingState = false ∧
    promptInputCanGenerate loadingState.prompt (loadingState.status == .loading) false = false :=
  c8_loading_disables_generate loadingState false rfl

/-! ## Restore validation (claim C4) -/

def isJsonNull : JValue → Bool
  | .jnull => true
  | _ => false

def isJsonArray : JValue → Bool
  | .jarr _ => true
  | _ => false

/-- On any non-null value the validation callback returns a verdict
instead of throwing. -/
theorem validateItem_isSome_of_not_null (v : JValue) (h : isJsonNull v = false) :
    ∃ b, validateItem v = some b := by
  cases v with
  | jnull => simp [isJsonNull] at h
  | jbool b => exact ⟨false, rfl⟩
  | jnum n => exact ⟨false, rfl⟩
  | jstr s => exact ⟨false, rfl⟩
  | jarr elems => exact ⟨_, rfl⟩
  | jobj fields => exact ⟨_, rfl⟩

/-- Without null elements the throwing filter agrees with a plain filter
on the validation verdict. -/
theorem filterValidate_of_no_null (elems : List JValue)
    (h : ∀ v ∈ elems, isJsonNull v = false) :
    filterValidate elems =
      some (elems.filter (fun v => validateItem v == some true)) := by
  induction elems with
  | nil => rfl
  | cons v rest ih =>
    obtain ⟨b, hb⟩ := validateItem_isSome_of_not_null v (h v (List.mem_cons_self _ _))
    have hrest := ih (fun w hw => h w (List.mem_cons_of_mem _ hw))
    cases b with
    | true => simp [filterValidate, hb, hrest, List.filter_cons]
    | false => simp [filterValidate, hb, hrest, List.filter_cons]

/-- C4 fails as stated: a persisted array holding one perfectly valid item
and a `null` makes `loadHistory` return `[]`, not the valid subset
`[itemB]` — `typeof null === 'object'` passes the first check, the access
`null.id` then throws, and the surrounding `catch` discards everything. -/
theorem c4_counterexample :
    loadHistory (.parsed (.jarr [encodeItem itemB, .jnull])) = [] ∧
    validateItem (encodeItem itemB) = some true ∧
    loadHistory (.parsed (.jarr [encodeItem itemB, .jnull])) ≠ [itemB] := by
  refine ⟨by decide, by decide, ?_⟩
  intro h
  rw [show loadHistory (.parsed (.jarr [encodeItem itemB, .jnull])) = [] from by decide] at h
  exact List.noConfusion h

/-- C4, amended: for persisted arrays with no `null` element, restore
returns exactly the items that pass shape validation (dropping only the
malformed ones), and it returns `[]` rather than throwing when storage is
absent, the payload is not valid JSON, or the payload is not an array; an
array containing `null`, however, makes the whole restore return `[]`. -/
theorem c4_restore_drops_malformed (elems : List JValue) (v : JValue)
    (hnn : ∀ w ∈ elems, isJsonNull w = false) :
    loadHistory (.parsed (.jarr elems)) =
      (elems.filter (fun w => validateItem w == some true)).map decodeItem ∧
    loadHistory .absent = [] ∧
    loadHistory .invalid = [] ∧
    (isJsonArray v = false → loadHistory (.parsed v) = []) := by
  refine ⟨?_, rfl, rfl, ?_⟩
  · simp only [loadHistory, filterValidate_of_no_null elems hnn]
  · intro hv
    cases v with
    | jarr elems2 => simp [isJsonArray] at hv
    | jnull => rfl
    | jbool b => rfl
    | jnum n => rfl
    | jstr s => rfl
    | jobj fields => rfl

/-- Concrete run of the amended C4: an array with one valid item, one item
missing `prompt`, and one non-object restores to exactly the valid item;
a numeric payload restores to `[]`. -/
theorem c4_witness :
    loadHistory (.parsed (.jarr [encodeItem itemB,
      .jobj [("id", .jstr "x"), ("imageData", .jstr "y"), ("timestamp", .jnum 3)],
      .jbool true])) = [itemB] ∧
    loadHistory (.parsed (.jnum 7)) = [] := by
  have h := c4_restore_drops_malformed
    [encodeItem itemB,
      .jobj [("id", .jstr "x"), ("imageData", .jstr "y"), ("timestamp", .jnum 3)],
      .jbool true]
    (.jnum 7) (by decide)
  constructor
  · rw [h.1]
    decide
  · exact h.2.2.2 (by decide)

/-- C9: in every reachable manager state (any sequence of acquire,
release, revoke and cleanup calls, with platform revocation total), every
registered reference has an integer `refCount ≥ 0` (in fact `≥ 1`),
`getRefCount` never returns a negative number, and a release that brings a
count to 0 removes the entry from the registry instead of leaving it at 0
or negative. -/
theorem c9_refcount_invariant (ops : List MOp) (url : Nat) (ref : BlobURLReference) :
    0 ≤ getRefCount url (runManager ops) ∧
    (mapGet (runManager ops).urlMap url = some ref →
      0 ≤ ref.refCount ∧ 1 ≤ ref.refCount) ∧
    (mapGet (runManager ops).urlMap url = some ref → ref.refCount - 1 ≤ 0 →
      mapGet (releaseURL url (runManager ops)).urlMap url = none) := by
  have hInv := ManagerInv_runManager ops
  refine ⟨?_, ?_, ?_⟩
  · unfold getRefCount
    cases hg : mapGet (runManager ops).urlMap url with
    | none => norm_num
    | some r =>
      have h1 : 1 ≤ r.refCount := hInv.pos (url, r) (mapGet_mem hg)
      show 0 ≤ r.refCount
      omega
  · intro hg
    have h1 : 1 ≤ ref.refCount := hInv.pos (url, ref) (mapGet_mem hg)
    exact ⟨by omega, h1⟩
  · intro hg hc
    rw [releaseURL_toZero hg hc, revokeURL_known hg]
    exact mapGet_mapDelete_self _ _

/-- Concrete run of C9: one acquire registers refCount 1 (never negative),
and the release that brings it to 0 removes the entry. -/
theorem c9_witness :
    0 ≤ getRefCount 0 (runManager [.acquire 0 (.file "a.png" 3 5)]) ∧
    1 ≤ (⟨0, 1, .file "a.png" 3 5, .file "a.png" 3 5, 0⟩ : BlobURLReference).refCount ∧
    mapGet (releaseURL 0 (runManager [.acquire 0 (.file "a.png" 3 5)])).urlMap 0 = none := by
  have h := c9_refcount_invariant [.acquire 0 (.file "a.png" 3 5)] 0
    ⟨0, 1, .file "a.png" 3 5, .file "a.png" 3 5, 0⟩
  exact ⟨h.1, (h.2.1 (by decide)).2, h.2.2 (by decide) (by decide)⟩

/-- C1 fails as stated: in the sequence acquire, release, release, acquire
on one file source there are 2 acquires and 2 releases, so the claimed
formula gives max (2 − 2) 0 = 0 outstanding references — but the second
release hits a revoked entry and is a no-op, so after the final acquire
the live refCount is 1. -/
theorem c1_counterexample :
    ([true, false, false, true].count true = 2 ∧
      [true, false, false, true].count false = 2) ∧
    sourceRefCount 0 (.file "a.png" 3 5)
        (runSourceSeq (.file "a.png" 3 5) [true, false, false, true] initManager) = 1 ∧
    sourceRefCount 0 (.file "a.png" 3 5)
        (runSourceSeq (.file "a.png" 3 5) [true, false, false, true] initManager) ≠
      max ((2 : Int) - 2) 0 := by
  decide

/-- C1, amended: the net outstanding refCount after an acquire/release
sequence on one file source is the running balance `netBalance`, which
truncates at 0 step by step (a release with no live entry is a no-op);
this equals #acquires − #releases whenever no prefix over-releases, but
not in general.  Moreover an acquire while a live entry exists for the
sourceKey returns the existing URL and increments its refCount rather
than allocating, and at most one URL is live per sourceKey in any
reachable registry. -/
theorem c1_refcount_balance (name : String) (size : Nat) (lastModified : Int)
    (seq : List Bool) :
    sourceRefCount 0 (.file name size lastModified)
        (runSourceSeq (.file name size lastModified) seq initManager) =
      (netBalance seq : Int) ∧
    (∀ (m : BlobURLManager) (now : Int) (src : BlobSource) (u : Nat)
        (ref : BlobURLReference),
      mapGet m.sourceKeyMap (createSourceKey now src) = some u →
      mapGet m.urlMap u = some ref →
      (getOrCreateURL now src m).1 = u ∧
      getRefCount u (getOrCreateURL now src m).2 = ref.refCount + 1) ∧
    (∀ (ops : List MOp) (u1 u2 : Nat) (r1 r2 : BlobURLReference),
      mapGet (runManager ops).urlMap u1 = some r1 →
      mapGet (runManager ops).urlMap u2 = some r2 →
      r1.sourceKey = r2.sourceKey → u1 = u2) := by
  refine ⟨?_, ?_, ?_⟩
  · exact sourceRefCount_of_shape
      (runSourceSeq_shape (.file name size lastModified) seq initManager 0
        (SourceShape_init _))
  · intro m now src u ref hsk hur
    rw [getOrCreateURL_dedup hsk hur]
    refine ⟨rfl, ?_⟩
    simp [getRefCount, mapGet_mapSet_self]
  · intro ops u1 u2 r1 r2 h1 h2 hkey
    have hInv := ManagerInv_runManager ops
    have hc1 := (hInv.urlCoh u1 r1 h1).2
    have hc2 := (hInv.urlCoh u2 r2 h2).2
    rw [hkey] at hc1
    rw [hc1] at hc2
    injection hc2

/-- Concrete instance of the amended C1: acquire, acquire, release leaves
a balance of 1, and re-acquiring while one holder is live reuses URL 0 and
raises its count to 2. -/
theorem c1_witness :
    sourceRefCount 0 (.file "a.png" 3 5)
        (runSourceSeq (.file "a.png" 3 5) [true, true, false] initManager) = 1 ∧
    (getOrCreateURL 0 (.file "a.png" 3 5)
        (runManager [.acquire 0 (.file "a.png" 3 5)])).1 = 0 ∧
    getRefCount 0 (getOrCreateURL 0 (.file "a.png" 3 5)
        (runManager [.acquire 0 (.file "a.png" 3 5)])).2 = 2 := by
  have h := c1_refcount_balance "a.png" 3 5 [true, true, false]
  have hd := h.2.1 (runManager [.acquire 0 (.file "a.png" 3 5)]) 0 (.file "a.png" 3 5) 0
    ⟨0, 1, .file "a.png" 3 5, .file "a.png" 3 5, 0⟩ (by decide) (by decide)
  refine ⟨?_, hd.1, ?_⟩
  · rw [h.1]
    decide
  · rw [hd.2]
    decide

/-! ## Acquire characterization (claim C7) -/

/-- The URL an acquire returns is live afterwards, and its reference
carries the acquired key. -/
theorem acquire_entry {m : BlobURLManager} (now : Int) (src : BlobSource)
    (hInv : ManagerInv m) :
    ∃ e, mapGet (getOrCreateURL now src m).2.urlMap (getOrCreateURL now src m).1 = some e ∧
      e.sourceKey = createSourceKey now src := by
  cases hsk : mapGet m.sourceKeyMap (createSourceKey now src) with
  | none =>
    rw [getOrCreateURL_create_of_no_key hsk]
    exact ⟨_, mapGet_mapSet_self _ _ _, rfl⟩
  | some u0 =>
    cases hu : mapGet m.urlMap u0 with
    | none =>
      rw [getOrCreateURL_create_of_stale hsk hu]
      exact ⟨_, mapGet_mapSet_self _ _ _, rfl⟩
    | some ref =>
      rw [getOrCreateURL_dedup hsk hu]
      refine ⟨{ ref with refCount := ref.refCount + 1 }, mapGet_mapSet_self _ _ _, ?_⟩
      obtain ⟨r, hr, hrk⟩ := hInv.keyCoh _ u0 hsk
      have : ref = r := by
        rw [hu] at hr
        injection hr
      show ref.sourceKey = createSourceKey now src
      rw [this]
      exact hrk

/-- An acquire whose key differs from that of a given live reference
returns a different URL and leaves both URLs live. -/
theorem acquire_distinct_of_live {m1 : BlobURLManager} {u1 : Nat}
    {e1 : BlobURLReference} (hM1 : ManagerInv m1)
    (h1 : mapGet m1.urlMap u1 = some e1) (now2 : Int) (src2 : BlobSource)
    (hk : e1.sourceKey ≠ createSourceKey now2 src2) :
    (getOrCreateURL now2 src2 m1).1 ≠ u1 ∧
    isManaged u1 (getOrCreateURL now2 src2 m1).2 = true ∧
    isManaged (getOrCreateURL now2 src2 m1).1 (getOrCreateURL now2 src2 m1).2 = true := by
  have hfresh1 : u1 < m1.nextURL := hM1.fresh (u1, e1) (mapGet_mem h1)
  cases hsk : mapGet m1.sourceKeyMap (createSourceKey now2 src2) with
  | none =>
    rw [getOrCreateURL_create_of_no_key hsk]
    refine ⟨by omega, ?_, ?_⟩
    · unfold isManaged
      rw [mapGet_mapSet_ne _ _ _ _ (by omega : u1 ≠ m1.nextURL), h1]
      rfl
    · unfold isManaged
      rw [mapGet_mapSet_self]
      rfl
  | some u0 =>
    cases hu : mapGet m1.urlMap u0 with
    | none =>
      rw [getOrCreateURL_create_of_stale hsk hu]
      refine ⟨by omega, ?_, ?_⟩
      · unfold isManaged
        rw [mapGet_mapSet_ne _ _ _ _ (by omega : u1 ≠ m1.nextURL), h1]
        rfl
      · unfold isManaged
        rw [mapGet_mapSet_self]
        rfl
    | some r2 =>
      rw [getOrCreateURL_dedup hsk hu]
      obtain ⟨r, hr, hrk⟩ := hM1.keyCoh _ u0 hsk
      have hrr : r2 = r := by
        rw [hu] at hr
        injection hr
      have hne : u0 ≠ u1 := by
        intro hcon
        apply hk
        rw [hcon] at hu
        rw [h1] at hu
        have : e1 = r2 := by injection hu
        rw [this, hrr]
        exact hrk
      refine ⟨hne, ?_, ?_⟩
      · unfold isManaged
        rw [mapGet_mapSet_ne _ _ _ _ (fun hcon => hne hcon.symm), h1]
        rfl
      · unfold isManaged
        rw [mapGet_mapSet_self]
        rfl

/-- C7 fails as stated: two acquires of an anonymous blob of the same size
and type within the same `Date.now()` millisecond derive the same
sourceKey `blob_<size>_<type>_<now>`, so the second acquire deduplicates —
it returns the same URL with refCount 2 instead of a fresh URL. -/
theorem c7_counterexample :
    (getOrCreateURL 100 (.blob 5 "image/png")
        (getOrCreateURL 100 (.blob 5 "image/png") initManager).2).1 =
      (getOrCreateURL 100 (.blob 5 "image/png") initManager).1 ∧
    getRefCount (getOrCreateURL 100 (.blob 5 "image/png") initManager).1
        (getOrCreateURL 100 (.blob 5 "image/png")
          (getOrCreateURL 100 (.blob 5 "image/png") initManager).2).2 = 2 := by
  decide

/-- C7, amended: anonymous-blob acquires whose timestamps differ derive
distinct sourceKeys, so in any reachable manager state two successive
anonymous acquires at distinct `Date.now()` values return distinct URLs,
both live in the registry afterwards; only acquires of the same size and
type within one millisecond can deduplicate. -/
theorem c7_anonymous_acquires_distinct (ops : List MOp) (t1 t2 : Int)
    (s1 s2 : Nat) (ty1 ty2 : String) (hne : t1 ≠ t2) :
    (getOrCreateURL t1 (.blob s1 ty1) (runManager ops)).1 ≠
      (getOrCreateURL t2 (.blob s2 ty2)
        (getOrCreateURL t1 (.blob s1 ty1) (runManager ops)).2).1 ∧
    isManaged (getOrCreateURL t1 (.blob s1 ty1) (runManager ops)).1
      (getOrCreateURL t2 (.blob s2 ty2)
        (getOrCreateURL t1 (.blob s1 ty1) (runManager ops)).2).2 = true ∧
    isManaged (getOrCreateURL t2 (.blob s2 ty2)
        (getOrCreateURL t1 (.blob s1 ty1) (runManager ops)).2).1
      (getOrCreateURL t2 (.blob s2 ty2)
        (getOrCreateURL t1 (.blob s1 ty1) (runManager ops)).2).2 = true := by
  have hM := ManagerInv_runManager ops
  have hM1 := ManagerInv_getOrCreateURL t1 (.blob s1 ty1) hM
  obtain ⟨e1, he1, hk1⟩ := acquire_entry t1 (.blob s1 ty1) hM
  have hk : e1.sourceKey ≠ createSourceKey t2 (.blob s2 ty2) := by
    rw [hk1]
    intro hcon
    injection hcon with h1 h2 h3
    exact hne h3
  have h := acquire_distinct_of_live hM1 he1 t2 (.blob s2 ty2) hk
  exact ⟨fun hcon => h.1 hcon.symm, h.2.1, h.2.2⟩

/-- Concrete instance of the amended C7: anonymous acquires at
milliseconds 100 and 101 return URLs 0 and 1, both live. -/
theorem c7_witness :
    (getOrCreateURL 100 (.blob 5 "image/png") (runManager [])).1 ≠
      (getOrCreateURL 101 (.blob 5 "image/png")
        (getOrCreateURL 100 (.blob 5 "image/png") (runManager [])).2).1 ∧
    isManaged (getOrCreateURL 100 (.blob 5 "image/png") (runManager [])).1
      (getOrCreateURL 101 (.blob 5 "image/png")
        (getOrCreateURL 100 (.blob 5 "image/png") (runManager [])).2).2 = true ∧
    isManaged (getOrCreateURL 101 (.blob 5 "image/png")
        (getOrCreateURL 100 (.blob 5 "image/png") (runManager [])).2).1
      (getOrCreateURL 101 (.blob 5 "image/png")
        (getOrCreateURL 100 (.blob 5 "image/png") (runManager [])).2).2 = true :=
  c7_anonymous_acquires_distinct [] 100 101 5 5 "image/png" "image/png" (by decide)

/-! ## Position of the original item (claim C6) -/

theorem mem_drop_one_append {l : List α} {g x : α}
    (h : x ∈ (l ++ [g]).drop 1) : x ∈ l.drop 1 ∨ x = g := by
  cases l with
  | nil => simp at h
  | cons a as =>
    rcases List.mem_append.mp h with h2 | h2
    · exact Or.inl h2
    · simp at h2
      exact Or.inr h2

theorem mem_drop_one_take {l : List α} {n : Nat} {x : α}
    (h : x ∈ (l.take n).drop 1) : x ∈ l.drop 1 := by
  cases l with
  | nil => simp at h
  | cons a as =>
    cases n with
    | zero => simp at h
    | succ n2 =>
      simp only [List.take_succ_cons] at h
      exact List.take_subset _ _ h

theorem mem_drop_one_drop {l : List α} {k : Nat} {x : α}
    (h : x ∈ (l.drop k).drop 1) : x ∈ l.drop 1 := by
  have heq : (l.drop k).drop 1 = (l.drop 1).drop k := by
    rw [List.drop_drop, List.drop_drop, Nat.add_comm]
  rw [heq] at h
  exact List.drop_subset _ _ h

/-- Every history event keeps the tail of the list free of originals:
upload resets to a single item, a generate success appends a
non-original, revert keeps a prefix, persist/restore keeps a suffix of
the list (possibly evicting the original itself — never moving one off
index 0), and clear empties it. -/
theorem tailNoOriginal_applyHOp {st : AppState} (op : HOp)
    (h : ∀ x ∈ st.imageHistory.drop 1, x.isOriginal = false) :
    ∀ x ∈ (applyHOp st op).imageHistory.drop 1, x.isOriginal = false := by
  cases op with
  | upload newId base64Data now =>
    intro x hx
    simp [applyHOp, handleImageSelect] at hx
  | generate newId now result =>
    obtain ⟨rs, rd, re⟩ := result
    cases hg : (rs && resultTruthyData rd) with
    | false =>
      have heq := @handleGenerateFinish_failure st newId now ⟨rs, rd, re⟩ hg
      intro x hx
      rw [show applyHOp st (HOp.generate newId now ⟨rs, rd, re⟩) =
          handleGenerateFinish newId now ⟨rs, rd, re⟩ st from rfl, heq] at hx
      exact h x hx
    | true =>
      cases rd with
      | none => simp [resultTruthyData] at hg
      | some d =>
        have hd : d ≠ "" := by
          intro hcon
          subst hcon
          simp [resultTruthyData] at hg
        have hrs : rs = true := by
          cases rs
          · simp at hg
          · rfl
        subst hrs
        have heq := @handleGenerateFinish_success st newId now d re hd
        intro x hx
        rw [show applyHOp st (HOp.generate newId now ⟨true, some d, re⟩) =
            handleGenerateFinish newId now ⟨true, some d, re⟩ st from rfl, heq] at hx
        rcases mem_drop_one_append hx with hold | hnew
        · exact h x hold
        · rw [hnew]
          rfl
  | revert historyId =>
    cases hf : jsFind (fun it : HistoryItem => it.id == historyId) st.imageHistory with
    | none =>
      intro x hx
      rw [show applyHOp st (HOp.revert historyId) = handleRevert historyId st from rfl,
        handleRevert_eq_of_not_found hf] at hx
      exact h x hx
    | some item =>
      have hiS : (findIndexOpt (fun it : HistoryItem => it.id == historyId)
          st.imageHistory).isSome := by
        rw [← jsFind_isSome_iff_findIndexOpt, hf]
        rfl
      obtain ⟨i, hi⟩ := Option.isSome_iff_exists.mp hiS
      intro x hx
      rw [show applyHOp st (HOp.revert historyId) = handleRevert historyId st from rfl,
        handleRevert_eq_of_found hf hi] at hx
      exact h x (mem_drop_one_take hx)
  | persistRestore =>
    intro x hx
    simp only [applyHOp, hydrateFromStorage, loadHistory_saveHistory] at hx
    cases hL : (st.imageHistory.drop
        (st.imageHistory.length - MAX_HISTORY_ITEMS)).getLast? with
    | none =>
      rw [hL] at hx
      simp [initAppState] at hx
    | some lastItem =>
      rw [hL] at hx
      exact h x (mem_drop_one_drop hx)
  | clearAll =>
    intro x hx
    simp [applyHOp, handleClear, initAppState] at hx

/-- C6: in every reachable history list of a session, any item with
`isOriginal = true` sits at index 0 — every item past the head is
non-original and hence at most one original exists, at index 0 when
present (the persist/restore cycle can evict the original, so "exactly
one" holds for the in-session operations but not across eviction; no
operation ever puts an original elsewhere than index 0). -/
theorem c6_original_at_head (ops : List HOp) :
    (∀ x ∈ (runHistory ops).imageHistory.drop 1, x.isOriginal = false) ∧
    (runHistory ops).imageHistory.countP (fun it => it.isOriginal) ≤ 1 := by
  have main : ∀ (l : List HOp) (st : AppState),
      (∀ x ∈ st.imageHistory.drop 1, x.isOriginal = false) →
      ∀ x ∈ (l.foldl applyHOp st).imageHistory.drop 1, x.isOriginal = false := by
    intro l
    induction l with
    | nil => intro st h; exact h
    | cons op rest ih =>
      intro st h
      exact ih _ (tailNoOriginal_applyHOp op h)
  have htail : ∀ x ∈ (runHistory ops).imageHistory.drop 1, x.isOriginal = false :=
    main ops initAppState (by simp [initAppState])
  refine ⟨htail, ?_⟩
  cases hL : (runHistory ops).imageHistory with
  | nil => simp [hL]
  | cons a t =>
    rw [List.countP_cons]
    have ht : t.countP (fun it => it.isOriginal) = 0 := by
      rw [List.countP_eq_zero]
      intro b hb
      have hb2 : b.isOriginal = false := htail b (by rw [hL]; exact hb)
      simp [hb2]
    rw [ht]
    cases ha : a.isOriginal <;> simp [ha]

/-- Concrete run of C6: after upload and one generate, the appended item
is non-original and the list holds a single original (at index 0). -/
theorem c6_witness :
    (createHistoryItem "id-g" "data:image/png;base64,img" "" 1).isOriginal = false ∧
    (runHistory [.upload "id-o" "d" 0,
      .generate "id-g" 1 ⟨true, some "img", none⟩]).imageHistory.countP
        (fun it => it.isOriginal) ≤ 1 := by
  have h := c6_original_at_head
    [.upload "id-o" "d" 0, .generate "id-g" 1 ⟨true, some "img", none⟩]
  exact ⟨h.1 _ (by decide), h.2⟩
